import Mathlib

/-!
# Verification of the TypeAhead widget (`src/js/modules/TypeAhead.js`)

A shallow embedding of the Titon TypeAhead autocomplete widget.  Strings are
modelled as Lean `String`/`List Char`; the DOM and the event bus are modelled
by an explicit session-state record plus an emitted-event trace; the debounce
timer is modelled as a pending flag together with an explicit split of
`lookup` into its synchronous scheduling phase and the timer-callback body.
-/

namespace TypeAhead

set_option maxRecDepth 65536

/-! ## Definitions: the shallow embedding -/

/-- Case-insensitive character comparison, mirroring the `"i"` regex flag /
`String.prototype.toLowerCase`. -/
def ciEq (a b : Char) : Bool := a.toLower == b.toLower

/-- Lower-casing of a string, mirroring `item.toLowerCase()`. -/
def lowerL (s : List Char) : List Char := s.map Char.toLower

/-- `hasSub pat hay` mirrors `hay.indexOf(pat) >= 0`: does `pat` occur as a
contiguous substring of `hay`?  (JS `indexOf` of the empty string is `0`.) -/
def hasSub (pat : List Char) : List Char → Bool
  | [] => pat.isEmpty
  | c :: s => pat.isPrefixOf (c :: s) || hasSub pat s

/-- The character class escaped by
`term.replace(/[\-\[\]{}()*+?.,\\^$|#]/g, "\\$&")` in `highlight`. -/
def escapeClass : List Char :=
  ['-', '[', ']', Char.ofNat 0x7b, Char.ofNat 0x7d, '(', ')', '*', '+', '?',
   '.', ',', '\\', '^', '$', '|', '#']

/-- Regex-metacharacter escaping of the term, mirroring
`term.replace(/[\-\[\]{}()*+?.,\\^$|#]/g, "\\$&")`. -/
def escapeTerm (t : List Char) : List Char :=
  t.flatMap fun c => if c ∈ escapeClass then ['\\', c] else [c]

/-- Undo `escapeTerm` on one sub-term: the regex built from the escaped
sub-term matches exactly the unescaped literal characters, so matching below
is performed against the unescaped pattern. -/
def unescape : List Char → List Char
  | [] => []
  | '\\' :: c :: rest => c :: unescape rest
  | c :: rest => c :: unescape rest

/-- `String.prototype.split(" ")`: split on every single space, keeping empty
segments (JS `"".split(" ")` is `[""]`). -/
def splitSp : List Char → List (List Char)
  | [] => [[]]
  | c :: rest =>
    if c = ' ' then [] :: splitSp rest
    else
      match splitSp rest with
      | [] => [[c]]
      | h :: t => (c :: h) :: t

/-- The sub-terms actually iterated by `highlight`'s
`for (var i = 0, t; t = terms[i]; i++)` loop: the escaped term is split on
spaces and the loop stops at the first empty (falsy) segment. -/
def subTerms (t : List Char) : List (List Char) :=
  (splitSp (escapeTerm t)).takeWhile fun s => !s.isEmpty

/-- The opening emphasis marker `<span class="highlight">` inserted by
`highlight`. -/
def openMark : List Char :=
  ['<', 's', 'p', 'a', 'n', ' ', 'c', 'l', 'a', 's', 's', '=', '"',
   'h', 'i', 'g', 'h', 'l', 'i', 'g', 'h', 't', '"', '>']

/-- The closing emphasis marker `</span>`. -/
def closeMark : List Char := ['<', '/', 's', 'p', 'a', 'n', '>']

/-- Case-insensitive literal prefix match: if `p` (already unescaped) matches
the beginning of `s`, return the matched characters of `s` and the rest. -/
def ciPre : List Char → List Char → Option (List Char × List Char)
  | [], s => some ([], s)
  | _ :: _, [] => none
  | p :: ps, c :: s =>
    if ciEq p c then
      match ciPre ps s with
      | some (m, r) => some (c :: m, r)
      | none => none
    else none

/-- `item.replace(new RegExp(t, "ig"), m => '<span class="highlight">'+m+'</span>')`
for one escaped sub-term `pat`: every case-insensitive occurrence of the
(unescaped) literal sub-term is wrapped in the emphasis markers, scanning left
to right and continuing after each match.  The `fuel` argument makes the
recursion structural; `replaceCI` below instantiates it with the string
length, which always suffices (each step consumes at least one character).
(The empty-match guard is unreachable: `highlight` never passes an empty
sub-term.) -/
def replaceCIF (pat : List Char) : Nat → List Char → List Char
  | _, [] => []
  | 0, s => s
  | fuel + 1, c :: s =>
    match ciPre (unescape pat) (c :: s) with
    | some (m, r) =>
      if m = [] then c :: replaceCIF pat fuel s
      else openMark ++ m ++ closeMark ++ replaceCIF pat fuel r
    | none => c :: replaceCIF pat fuel s

/-- One sub-term replacement pass (see `replaceCIF`). -/
def replaceCI (pat s : List Char) : List Char := replaceCIF pat s.length s

/-- `highlight(item)` from the source: escape regex metacharacters in the
term, split on spaces, and wrap the occurrences of each sub-term in
succession (the loop stops at the first empty sub-term). -/
def highlightL (term item : List Char) : List Char :=
  (subTerms term).foldl (fun it pat => replaceCI pat it) item

/-- String-level wrapper of `highlightL`; arguments are `(term, item)`. -/
def highlight (term item : String) : String := String.mk (highlightL term.data item.data)

/-- Remove every occurrence of either emphasis marker (the "stripping" of the
round-trip property), scanning left to right.  Structural in `fuel`;
`stripMarks` below instantiates it with the string length, which always
suffices. -/
def stripMarksF : Nat → List Char → List Char
  | _, [] => []
  | 0, s => s
  | fuel + 1, c :: s =>
    if openMark.isPrefixOf (c :: s) then stripMarksF fuel ((c :: s).drop openMark.length)
    else if closeMark.isPrefixOf (c :: s) then stripMarksF fuel ((c :: s).drop closeMark.length)
    else c :: stripMarksF fuel s

/-- Remove every occurrence of either emphasis marker (see `stripMarksF`). -/
def stripMarks (s : List Char) : List Char := stripMarksF s.length s

/-- String-level wrapper of `stripMarks`. -/
def stripMarkers (s : String) : String := String.mk (stripMarks s.data)

/-- Emitted widget events (the event-bus collaborator).  A `select` carries
`items[index]` (`none` models JS `undefined` for an out-of-range read) and
the index. -/
inductive Event
  | init
  | show
  | reset
  | select (item : Option String) (index : Int)
deriving DecidableEq

/-- Errors thrown by the widget code under scrutiny
(`throw new Error('Invalid TypeAhead source type')`). -/
inductive TAError
  | invalidSourceKind
deriving DecidableEq

/-- Arguments a source function could receive: a string, or the widget
context. -/
inductive JSArg
  | str (s : String)
  | widgetCtx
deriving DecidableEq

/-- Values a source function can produce: an array of items, or one of the
falsy values (`null` / `undefined` / `false`). -/
inductive JSVal
  | varr (items : List String)
  | vnull
  | vundefined
  | vfalse
deriving DecidableEq

/-- JS truthiness of a `JSVal`: arrays are truthy even when empty. -/
def truthy : JSVal → Bool
  | .varr _ => true
  | _ => false

/-- The items carried by a truthy response. -/
def respItems : JSVal → List String
  | .varr l => l
  | _ => []

/-- A caller-supplied source function: receives an argument list and either
throws (`.error`) or returns a value. -/
def FuncSource : Type := List JSArg → Except Unit JSVal

/-- The configured source: a literal array, a remote locator string, a
function, or any other (unrecognized) value — `kind` stands for the
`typeOf` tag of such a value (e.g. `"number"`). -/
inductive Source
  | arr (items : List String)
  | locator (url : String)
  | func (f : FuncSource)
  | other (kind : String)

/-- Per-instance configuration after `initialize` has applied the default
`sorter`/`matcher` (the JS defaults are `this.sort`/`this.match`). -/
structure Config where
  minLength : Nat
  itemLimit : Nat
  throttle : Nat
  prefetch : Bool
  source : Source
  sorter : List String → List String
  matcher : String → String → Bool

/-- Mutable session state of one widget instance: current `term`, active
`index`, rendered `items`, the term→result `cache`, the bound input's
displayed value, the dropdown's visibility, and whether a debounce timer is
pending. -/
structure State where
  term : String
  index : Int
  items : List String
  cache : List (String × List String)
  inputValue : String
  visible : Bool
  timerPending : Bool
deriving DecidableEq

/-- `this.cache[key]` (values stored in the cache are arrays, which are
always truthy in JS, so presence alone decides `if (this.cache[term])`). -/
def cacheFind (c : List (String × List String)) (k : String) : Option (List String) :=
  (c.find? fun e => e.1 == k).map fun e => e.2

/-- `this.cache[key] = v`. -/
def cacheInsert (c : List (String × List String)) (k : String) (v : List String) :
    List (String × List String) :=
  (k, v) :: c.filter fun e => !(e.1 == k)

/-- The default matcher `match`: case-insensitive substring containment,
`item.toLowerCase().indexOf(term.toLowerCase()) >= 0`. -/
def defaultMatch (item term : String) : Bool :=
  hasSub (lowerL term.data) (lowerL item.data)

/-- The default sorter `sort`: `items.sort()`, lexicographic order. -/
def defaultSort (items : List String) : List String :=
  items.insertionSort (· ≤ ·)

/-- The filtering loop of `process` (source lines 210–229): iterate the
sorted items with kept-counter `c`; break when `c ≥ itemLimit` (before
calling the matcher); skip items rejected by the matcher; otherwise
highlight, push and increment.  Returns the kept items together with the
trace of items passed to the matcher and the trace of items passed to the
highlighter. -/
def processScan (matcher : String → String → Bool) (term : String) (limit : Nat) :
    List String → Nat → List String × List String × List String
  | [], _ => ([], [], [])
  | item :: rest, c =>
    if c ≥ limit then ([], [], [])
    else if !matcher item term then
      let r := processScan matcher term limit rest c
      (r.1, item :: r.2.1, r.2.2)
    else
      let r := processScan matcher term limit rest (c + 1)
      (item :: r.1, item :: r.2.1, item :: r.2.2)

/-- `process(items)` (source lines 189–246): guard on empty term or empty
raw list (hide and return, touching nothing else); sort; reset
`items`/`index`; filter/cap/highlight; write `cache[term] = items`;
position — `_position` hides when nothing was kept, else shows — and fire
`show`. -/
def process (cfg : Config) (st : State) (raw : List String) : State × List Event :=
  if st.term = "" ∨ raw = [] then
    ({ st with visible := false }, [])
  else
    let sorted := cfg.sorter raw
    let kept := (processScan cfg.matcher st.term cfg.itemLimit sorted 0).1
    ({ st with
        items := kept,
        index := -1,
        cache := cacheInsert st.cache st.term kept,
        visible := !kept.isEmpty },
     [Event.show])

/-- Keys distinguished by `_cycle`; `other` stands for any other key. -/
inductive Key
  | up
  | down
  | tab
  | enter
  | esc
  | other
deriving DecidableEq

/-- `items[i]` for a possibly negative JS index: `undefined` (`none`) when
out of range. -/
def jsGet (l : List String) (i : Int) : Option String :=
  if i < 0 then none else l.get? i.toNat

/-- The block after the `switch` in `_cycle` (source lines 320–329): when
the new index is non-negative, the active row is marked and the input's
displayed value is set to the active item's text (live preview). -/
def markActive (st : State) : State :=
  if st.index ≥ 0 then
    { st with inputValue := st.items.getD st.index.toNat st.inputValue }
  else st

/-- `_cycle(e)` (source lines 264–330): the keyboard selection machine.
The effective length is `items.length.limit(0, itemLimit)`, i.e. the clamp
`min items.length itemLimit` (lengths are already non-negative).  Nothing
happens when that length is zero or the dropdown is hidden. -/
def cycle (cfg : Config) (st : State) (k : Key) : State × List Event :=
  let len := min st.items.length cfg.itemLimit
  if len = 0 ∨ st.visible = false then (st, [])
  else
    match k with
    | .up =>
      let i := st.index - 1
      let i2 := if i < 0 then (len : Int) - 1 else i
      (markActive { st with index := i2 }, [])
    | .down =>
      let i := st.index + 1
      let i2 := if i ≥ (len : Int) then 0 else i
      (markActive { st with index := i2 }, [])
    | .tab =>
      (markActive { st with index := 0, visible := false },
       [Event.select (jsGet st.items 0) 0])
    | .enter =>
      (markActive { st with visible := false },
       [Event.select (jsGet st.items st.index) st.index])
    | .esc =>
      (markActive { st with index := -1, inputValue := st.term, visible := false },
       [Event.reset])
    | .other => (st, [])

/-- MooTools `fn.attempt(args, bind)`: run the function on the given
arguments, returning `null` when it throws. -/
def attempt (f : FuncSource) (args : List JSArg) : JSVal :=
  match f args with
  | .error _ => JSVal.vnull
  | .ok v => v

/-- The argument list a function source receives:
`options.source.attempt([], this)` supplies an empty argument list (the
widget is only the `this` binding, not an argument). -/
def funcCallArgs : List JSArg := []

/-- The body of the debounce-timer callback scheduled by `lookup` (source
lines 135–170): cache check first, then dispatch on the source kind.  The
`Bool` in the result records whether the configured source itself was
consulted (array read, function call, or network fetch issued).  A remote
fetch is asynchronous: the callback itself returns with no synchronous
state change. -/
def fireTimer (cfg : Config) (st : State) : Except TAError (State × List Event × Bool) :=
  match cacheFind st.cache st.term with
  | some items =>
    let r := process cfg st items
    .ok (r.1, r.2, false)
  | none =>
    match cfg.source with
    | .locator url =>
      match cacheFind st.cache url with
      | some items =>
        let r := process cfg st items
        .ok (r.1, r.2, false)
      | none => .ok (st, [], true)
    | .arr items =>
      let r := process cfg st items
      .ok (r.1, r.2, true)
    | .func f =>
      let response := attempt f funcCallArgs
      if truthy response then
        let r := process cfg st (respItems response)
        .ok (r.1, r.2, true)
      else .ok (st, [], true)
    | .other _ => .error TAError.invalidSourceKind

/-- The synchronous body of `lookup(term)` (source lines 133–135 and 170):
store the term and schedule the timer.  The body contains no `throw`; the
source-kind dispatch (and its `Invalid TypeAhead source type` error) runs
only inside the timer callback, modelled by `fireTimer`.  The `Except`
return type makes "throws nothing synchronously" a provable statement. -/
def lookupSchedule (_cfg : Config) (st : State) (term : String) : Except TAError State :=
  .ok { st with term := term, timerPending := true }

/-- The keys `_lookup` leaves to `_cycle`. -/
def navKeys : List Key := [Key.up, Key.down, Key.esc, Key.tab, Key.enter]

/-- `value.trim()`. -/
def jsTrim (s : String) : String :=
  String.mk (((s.data.dropWhile Char.isWhitespace).reverse.dropWhile
    Char.isWhitespace).reverse)

/-- `_lookup(e)` (source lines 338–353): navigation keys are left to
`_cycle`; otherwise the pending timer is unconditionally cleared, the input
value is trimmed, and either the dropdown is hidden (term too short — no new
timer) or `lookup(term)` is invoked.  The `Bool` records whether a lookup
was scheduled. -/
def keyLookup (cfg : Config) (st : State) (k : Key) : State × Bool :=
  if navKeys.contains k then (st, false)
  else
    let st1 := { st with timerPending := false }
    let term := jsTrim st.inputValue
    if term.length < cfg.minLength then
      ({ st1 with visible := false }, false)
    else
      match lookupSchedule cfg st1 term with
      | .ok st2 => (st2, true)
      | .error _ => (st1, false)

/-- Demo configurations used by the concrete witnesses. -/
def arrConfig (src : List String) (limit : Nat) (minLen : Nat) : Config :=
  { minLength := minLen, itemLimit := limit, throttle := 250, prefetch := false,
    source := Source.arr src, sorter := defaultSort, matcher := defaultMatch }

/-- A fresh session state with the given term and input value. -/
def initState (term inputVal : String) : State :=
  { term := term, index := -1, items := [], cache := [], inputValue := inputVal,
    visible := false, timerPending := false }

/-- The session of Scenario D: term `"ban"`, index 1 previewed into the
input. -/
def escDemoState : State :=
  { term := "ban", index := 1, items := ["banana", "bandana"], cache := [],
    inputValue := "bandana", visible := true, timerPending := false }

/-- The open dropdown right after rendering `["apple"]`, before any
navigation. -/
def enterDemoState : State :=
  { term := "a", index := -1, items := ["apple"], cache := [], inputValue := "a",
    visible := true, timerPending := false }

/-- A configuration whose source is none of the recognized kinds; `kind` is
its `typeOf` tag. -/
def otherConfig (kind : String) : Config :=
  { minLength := 1, itemLimit := 15, throttle := 250, prefetch := false,
    source := Source.other kind, sorter := defaultSort, matcher := defaultMatch }

/-- A configuration whose source is the given function. -/
def funcConfig (f : FuncSource) : Config :=
  { minLength := 1, itemLimit := 15, throttle := 250, prefetch := false,
    source := Source.func f, sorter := defaultSort, matcher := defaultMatch }

/-- A source function that returns the empty array (truthy in JS). -/
def emptyArrFunc : FuncSource := fun _ => Except.ok (JSVal.varr [])

/-- A source function that always throws. -/
def throwFunc : FuncSource := fun _ => Except.error ()

/-- An open dropdown session over previously rendered items. -/
def openDemoState : State :=
  { term := "zz", index := 0, items := ["old"], cache := [], inputValue := "zz",
    visible := true, timerPending := false }

/-- A configuration with a custom sorter that reverses its input (a
perfectly legal `sorter` option). -/
def revConfig : Config :=
  { minLength := 1, itemLimit := 15, throttle := 250, prefetch := false,
    source := Source.arr ["aa", "ab"], sorter := fun l => l.reverse,
    matcher := defaultMatch }

/-- The session after the first lookup for `"a"` under `revConfig`: the raw
list was reverse-sorted to `["ab", "aa"]`, rendered, and cached. -/
def revState1 : State :=
  { term := "a", index := -1, items := ["ab", "aa"],
    cache := [("a", ["ab", "aa"])], inputValue := "", visible := true,
    timerPending := false }

/-- The session after the second lookup for `"a"` under `revConfig`: the
cache-hit branch re-processed `cache["a"]`, re-applying the reversing sorter
to the cached list and rendering `["aa", "ab"]` instead. -/
def revState2 : State :=
  { term := "a", index := -1, items := ["aa", "ab"],
    cache := [("a", ["aa", "ab"])], inputValue := "", visible := true,
    timerPending := false }

/-! ## Theorems -/

theorem ciPre_append {p : List Char} : ∀ {s m r : List Char},
    ciPre p s = some (m, r) → s = m ++ r := by
  induction p with
  | nil =>
    intro s m r h
    simp only [ciPre, Option.some.injEq, Prod.mk.injEq] at h
    obtain ⟨h1, h2⟩ := h
    subst h1; subst h2
    simp
  | cons x xs ih =>
    intro s m r h
    cases s with
    | nil => simp only [ciPre] at h; exact Option.noConfusion h
    | cons c cs =>
      simp only [ciPre] at h
      split at h
      · cases hp : ciPre xs cs with
        | none => rw [hp] at h; simp at h
        | some pr =>
          obtain ⟨pm, pr'⟩ := pr
          rw [hp] at h
          simp only [Option.some.injEq, Prod.mk.injEq] at h
          obtain ⟨h1, h2⟩ := h
          subst h2
          rw [← h1]
          simpa using ih hp
      · simp at h

theorem stripMarksF_fuel {f1 : Nat} : ∀ {f2 : Nat} {s : List Char},
    s.length ≤ f1 → s.length ≤ f2 → stripMarksF f1 s = stripMarksF f2 s := by
  induction f1 with
  | zero =>
    intro f2 s h1 _
    have : s = [] := List.length_eq_zero.mp (Nat.le_zero.mp h1)
    subst this
    cases f2 <;> rfl
  | succ f1 ih =>
    intro f2 s h1 h2
    cases s with
    | nil => cases f2 <;> rfl
    | cons c t =>
      cases f2 with
      | zero => simp at h2
      | succ f2 =>
        simp only [stripMarksF]
        have hlt : t.length ≤ f1 := by simp at h1; omega
        have hlt2 : t.length ≤ f2 := by simp at h2; omega
        by_cases ho : openMark.isPrefixOf (c :: t) = true
        · rw [if_pos ho, if_pos ho]
          apply ih <;> · simp [openMark]; omega
        · rw [if_neg ho, if_neg ho]
          by_cases hc : closeMark.isPrefixOf (c :: t) = true
          · rw [if_pos hc, if_pos hc]
            apply ih <;> · simp [closeMark]; omega
          · rw [if_neg hc, if_neg hc, ih hlt hlt2]

theorem stripMarks_nil : stripMarks [] = [] := rfl

theorem stripMarksF_open (fuel : Nat) (xs : List Char) :
    stripMarksF (fuel + 1) (openMark ++ xs) = stripMarksF fuel xs := by
  have hc : openMark.isPrefixOf ('<' :: (openMark.tail ++ xs)) = true := by
    show openMark.isPrefixOf (openMark ++ xs) = true
    simp [List.isPrefixOf_iff_prefix]
  show stripMarksF (fuel + 1) ('<' :: (openMark.tail ++ xs)) = stripMarksF fuel xs
  simp only [stripMarksF, hc]
  rfl

theorem stripMarksF_close (fuel : Nat) (xs : List Char) :
    stripMarksF (fuel + 1) (closeMark ++ xs) = stripMarksF fuel xs := by
  have ho : openMark.isPrefixOf ('<' :: (closeMark.tail ++ xs)) = false := by
    show openMark.isPrefixOf (closeMark ++ xs) = false
    have hb : ('s' == '/') = false := by decide
    simp [openMark, closeMark, List.isPrefixOf, hb]
  have hc : closeMark.isPrefixOf ('<' :: (closeMark.tail ++ xs)) = true := by
    show closeMark.isPrefixOf (closeMark ++ xs) = true
    simp [List.isPrefixOf_iff_prefix]
  show stripMarksF (fuel + 1) ('<' :: (closeMark.tail ++ xs)) = stripMarksF fuel xs
  simp only [stripMarksF, ho, hc]
  rfl

theorem stripMarks_open (xs : List Char) :
    stripMarks (openMark ++ xs) = stripMarks xs := by
  show stripMarksF (xs.length + 24) (openMark ++ xs) = stripMarksF xs.length xs
  rw [show xs.length + 24 = (xs.length + 23) + 1 from rfl, stripMarksF_open]
  exact stripMarksF_fuel (by omega) (by omega)

theorem stripMarks_close (xs : List Char) :
    stripMarks (closeMark ++ xs) = stripMarks xs := by
  show stripMarksF (xs.length + 7) (closeMark ++ xs) = stripMarksF xs.length xs
  rw [show xs.length + 7 = (xs.length + 6) + 1 from rfl, stripMarksF_close]
  exact stripMarksF_fuel (by omega) (by omega)

theorem marker_pre_false {t s : List Char} {c : Char} (hc : c ≠ '<') :
    List.isPrefixOf ('<' :: t) (c :: s) = false := by
  have hb : ('<' == c) = false := beq_eq_false_iff_ne.mpr fun h => hc h.symm
  simp [List.isPrefixOf, hb]

theorem stripMarks_cons_ne {c : Char} (s : List Char) (hc : c ≠ '<') :
    stripMarks (c :: s) = c :: stripMarks s := by
  have h1 : openMark.isPrefixOf (c :: s) = false := by
    simp only [openMark]; exact marker_pre_false hc
  have h2 : closeMark.isPrefixOf (c :: s) = false := by
    simp only [closeMark]; exact marker_pre_false hc
  show stripMarksF (s.length + 1) (c :: s) = c :: stripMarksF s.length s
  simp only [stripMarksF, h1, h2]
  simp

theorem stripMarks_append_no_lt : ∀ (seg : List Char), '<' ∉ seg →
    ∀ (xs : List Char), stripMarks (seg ++ xs) = seg ++ stripMarks xs := by
  intro seg
  induction seg with
  | nil => intro _ xs; simp
  | cons c t ih =>
    intro hmem xs
    simp only [List.mem_cons, not_or] at hmem
    obtain ⟨h1, h2⟩ := hmem
    rw [List.cons_append, stripMarks_cons_ne _ (fun h => h1 h.symm), ih h2 xs]
    simp

theorem stripMarks_replaceCIF (pat : List Char) : ∀ (fuel : Nat) (s : List Char),
    s.length ≤ fuel → '<' ∉ s → stripMarks (replaceCIF pat fuel s) = s := by
  intro fuel
  induction fuel with
  | zero =>
    intro s hlen _
    have hs : s = [] := List.length_eq_zero.mp (Nat.le_zero.mp hlen)
    subst hs
    rfl
  | succ fuel ih =>
    intro s hlen hmem
    cases s with
    | nil => rfl
    | cons c t =>
      have hmem' := hmem
      simp only [List.mem_cons, not_or] at hmem'
      obtain ⟨h1, h2⟩ := hmem'
      have hc : c ≠ '<' := fun h => h1 h.symm
      have hlt : t.length ≤ fuel := by simp at hlen; omega
      simp only [replaceCIF]
      cases hp : ciPre (unescape pat) (c :: t) with
      | none =>
        dsimp only
        rw [stripMarks_cons_ne _ hc, ih t hlt h2]
      | some mr =>
        obtain ⟨m, r⟩ := mr
        dsimp only
        by_cases hm : m = []
        · rw [if_pos hm, stripMarks_cons_ne _ hc, ih t hlt h2]
        · rw [if_neg hm]
          have hsr := ciPre_append hp
          have hmm : '<' ∉ m := fun hx => hmem (by rw [hsr]; exact List.mem_append_left r hx)
          have hmr : '<' ∉ r := fun hx => hmem (by rw [hsr]; exact List.mem_append_right m hx)
          have hlr : r.length ≤ fuel := by
            have := congrArg List.length hsr
            simp at this
            have hm0 : m.length ≠ 0 := fun hz => hm (List.length_eq_zero.mp hz)
            omega
          rw [List.append_assoc, List.append_assoc, stripMarks_open,
            stripMarks_append_no_lt m hmm, stripMarks_close, ih r hlr hmr]
          rw [← hsr]

theorem stripMarks_replaceCI (pat s : List Char) (h : '<' ∉ s) :
    stripMarks (replaceCI pat s) = s :=
  stripMarks_replaceCIF pat s.length s le_rfl h

theorem splitSp_no_space : ∀ {l : List Char}, ' ' ∉ l → splitSp l = [l] := by
  intro l
  induction l with
  | nil => intro _; rfl
  | cons c t ih =>
    intro h
    simp only [List.mem_cons, not_or] at h
    obtain ⟨h1, h2⟩ := h
    have hc : ¬(c = ' ') := fun hh => h1 hh.symm
    simp [splitSp, hc, ih h2]

theorem escapeTerm_no_space {t : List Char} (h : ' ' ∉ t) : ' ' ∉ escapeTerm t := by
  intro hx
  simp only [escapeTerm, List.mem_flatMap] at hx
  obtain ⟨c, hc, hin⟩ := hx
  by_cases hcl : c ∈ escapeClass
  · rw [if_pos hcl] at hin
    simp only [List.mem_cons, List.not_mem_nil, or_false] at hin
    rcases hin with h1 | h1
    · exact absurd h1 (by decide)
    · exact h (by rw [h1]; exact hc)
  · rw [if_neg hcl] at hin
    simp only [List.mem_cons, List.not_mem_nil, or_false] at hin
    exact h (by rw [hin]; exact hc)

theorem escapeTerm_ne_nil {t : List Char} (h : t ≠ []) : escapeTerm t ≠ [] := by
  cases t with
  | nil => exact absurd rfl h
  | cons c r =>
    simp only [escapeTerm, List.flatMap_cons]
    split <;> simp

theorem subTerms_no_space {t : List Char} (h : ' ' ∉ t) :
    subTerms t = if t = [] then [] else [escapeTerm t] := by
  rw [subTerms, splitSp_no_space (escapeTerm_no_space h)]
  by_cases ht : t = []
  · subst ht
    simp [escapeTerm, List.takeWhile]
  · rw [if_neg ht]
    have hne := escapeTerm_ne_nil ht
    have hie : (escapeTerm t).isEmpty = false := by
      cases hE : escapeTerm t with
      | nil => exact absurd hE hne
      | cons a b => rfl
    simp [List.takeWhile, hie]

/-- **C4** (counterexample).  The round-trip claim fails as stated: for the
two-word term `"s a"` and item `"sa"`, the second sub-term `"a"` re-matches
inside the markup inserted for the first sub-term (the `a` of `span`,
`class`, `</span>`), so stripping the markers from the highlighted output
yields `<span class="highlight">s</span>a`, not the original `"sa"`. -/
theorem C4_round_trip_counterexample :
    stripMarkers (highlight "s a" "sa") ≠ "sa" ∧
    stripMarkers (highlight "s a" "sa") = "<span class=\"highlight\">s</span>a" := by
  exact ⟨by decide, by decide⟩

/-- **C4** (amended).  For every term containing no space (so `highlight`
performs a single sequential pass) and every item containing no `'<'`
character (so the item cannot collide with the emphasis markers), stripping
the emphasis markers from `highlight term item` yields back the original
item string byte-for-byte. -/
theorem C4_highlight_round_trip (term item : String)
    (hsp : ' ' ∉ term.data) (hlt : '<' ∉ item.data) :
    stripMarkers (highlight term item) = item := by
  obtain ⟨d⟩ := item
  show String.mk (stripMarks (highlightL term.data d)) = String.mk d
  congr 1
  rw [highlightL, subTerms_no_space hsp]
  by_cases ht : term.data = []
  · rw [if_pos ht]
    show stripMarks d = d
    have := stripMarks_append_no_lt d hlt []
    simpa [stripMarks_nil] using this
  · rw [if_neg ht]
    show stripMarks (replaceCI (escapeTerm term.data) d) = d
    exact stripMarks_replaceCI _ d hlt

/-- Witness for C4: concrete instance `term = "ap"`, `item = "apple"`. -/
theorem C4_round_trip_witness :
    (' ' ∉ "ap".data ∧ '<' ∉ "apple".data) ∧
    stripMarkers (highlight "ap" "apple") = "apple" :=
  ⟨⟨by decide, by decide⟩, C4_highlight_round_trip "ap" "apple" (by decide) (by decide)⟩

theorem processScan_kept (m : String → String → Bool) (term : String) (limit : Nat) :
    ∀ (l : List String) (c : Nat), c ≤ limit →
      (processScan m term limit l c).1 =
        (l.filter fun it => m it term).take (limit - c) := by
  intro l
  induction l with
  | nil => intro c _; simp [processScan]
  | cons item rest ih =>
    intro c hc
    simp only [processScan]
    by_cases hcl : c ≥ limit
    · have hc0 : limit - c = 0 := by omega
      rw [if_pos hcl, hc0]
      simp
    · rw [if_neg hcl]
      have hlim : limit - c = (limit - (c + 1)) + 1 := by omega
      cases hb : m item term with
      | false =>
        simp only [hb, Bool.not_false, if_true]
        rw [ih c hc, List.filter_cons, hb]
        simp
      | true =>
        simp only [hb, Bool.not_true, Bool.false_eq_true, if_false]
        rw [ih (c + 1) (by omega), List.filter_cons, hb]
        simp only [if_true]
        rw [hlim, List.take_succ_cons]

theorem processScan_highlight (m : String → String → Bool) (term : String) (limit : Nat) :
    ∀ (l : List String) (c : Nat),
      (processScan m term limit l c).2.2 = (processScan m term limit l c).1 := by
  intro l
  induction l with
  | nil => intro c; rfl
  | cons item rest ih =>
    intro c
    simp only [processScan]
    by_cases hcl : c ≥ limit
    · rw [if_pos hcl]
    · rw [if_neg hcl]
      cases hb : m item term with
      | false =>
        simp only [hb, Bool.not_false, if_true]
        exact ih c
      | true =>
        simp only [hb, Bool.not_true, Bool.false_eq_true, if_false]
        rw [ih (c + 1)]

theorem processScan_matcher (m : String → String → Bool) (term : String) (limit : Nat) :
    ∀ (l : List String) (c : Nat), c ≤ limit →
      ∃ untouched, l = (processScan m term limit l c).2.1 ++ untouched ∧
        (untouched ≠ [] →
          c + ((processScan m term limit l c).2.1.countP fun it => m it term) = limit) := by
  intro l
  induction l with
  | nil =>
    intro c _
    exact ⟨[], rfl, fun h => absurd rfl h⟩
  | cons item rest ih =>
    intro c hc
    simp only [processScan]
    by_cases hcl : c ≥ limit
    · rw [if_pos hcl]
      exact ⟨item :: rest, rfl, fun _ => by simp; omega⟩
    · rw [if_neg hcl]
      cases hb : m item term with
      | false =>
        simp only [hb, Bool.not_false, if_true]
        obtain ⟨u, hu, hcnt⟩ := ih c hc
        refine ⟨u, by rw [List.cons_append, ← hu], fun hne => ?_⟩
        rw [List.countP_cons, hb]
        simpa using hcnt hne
      | true =>
        simp only [hb, Bool.not_true, Bool.false_eq_true, if_false]
        obtain ⟨u, hu, hcnt⟩ := ih (c + 1) (by omega)
        refine ⟨u, by rw [List.cons_append, ← hu], fun hne => ?_⟩
        rw [List.countP_cons, hb]
        have := hcnt hne
        simp at this ⊢
        omega

/-- **C1**.  For every non-empty term and non-empty raw item list: the
render pipeline keeps exactly the matching items of the sorted list, in
order, capped at `itemLimit`; the rendered list has length at most
`itemLimit`; the highlighter is invoked on exactly the kept items; and the
matcher is invoked only on a prefix of the sorted list that ends as soon as
`itemLimit` items have been kept — the items beyond that point (`untouched`)
reach neither the matcher nor the highlighter. -/
theorem C1_pipeline_cap (cfg : Config) (st : State) (raw : List String)
    (hterm : st.term ≠ "") (hraw : raw ≠ []) :
    (process cfg st raw).1.items =
        ((cfg.sorter raw).filter fun it => cfg.matcher it st.term).take cfg.itemLimit ∧
    (process cfg st raw).1.items.length ≤ cfg.itemLimit ∧
    (processScan cfg.matcher st.term cfg.itemLimit (cfg.sorter raw) 0).2.2 =
        (process cfg st raw).1.items ∧
    (∃ untouched,
      cfg.sorter raw =
        (processScan cfg.matcher st.term cfg.itemLimit (cfg.sorter raw) 0).2.1 ++
          untouched ∧
      (untouched ≠ [] →
        ((processScan cfg.matcher st.term cfg.itemLimit (cfg.sorter raw) 0).2.1.countP
          fun it => cfg.matcher it st.term) = cfg.itemLimit)) := by
  have hguard : ¬(st.term = "" ∨ raw = []) := by
    push_neg
    exact ⟨hterm, hraw⟩
  have hproc : (process cfg st raw).1.items =
      (processScan cfg.matcher st.term cfg.itemLimit (cfg.sorter raw) 0).1 := by
    simp only [process]
    rw [if_neg hguard]
  have hkept := processScan_kept cfg.matcher st.term cfg.itemLimit (cfg.sorter raw) 0
    (Nat.zero_le _)
  rw [Nat.sub_zero] at hkept
  refine ⟨by rw [hproc, hkept], ?_, ?_, ?_⟩
  · rw [hproc, hkept]
    exact List.length_take_le _ _
  · rw [hproc]
    exact processScan_highlight cfg.matcher st.term cfg.itemLimit (cfg.sorter raw) 0
  · obtain ⟨u, hu, hcnt⟩ :=
      processScan_matcher cfg.matcher st.term cfg.itemLimit (cfg.sorter raw) 0
        (Nat.zero_le _)
    refine ⟨u, hu, fun hne => ?_⟩
    have := hcnt hne
    omega

/-- Witness for C1: Scenario C — `itemLimit = 2`, term `"a"`, raw items
`["aa", "ab", "ac"]`: rendered is `["aa", "ab"]` and `"ac"` stays beyond
the limit. -/
theorem C1_pipeline_cap_witness :
    ((initState "a" "a").term ≠ "" ∧ (["aa", "ab", "ac"] : List String) ≠ []) ∧
    ((process (arrConfig ["aa", "ab", "ac"] 2 1) (initState "a" "a")
        ["aa", "ab", "ac"]).1.items =
      (((arrConfig ["aa", "ab", "ac"] 2 1).sorter ["aa", "ab", "ac"]).filter fun it =>
        (arrConfig ["aa", "ab", "ac"] 2 1).matcher it (initState "a" "a").term).take
          (arrConfig ["aa", "ab", "ac"] 2 1).itemLimit ∧
    (process (arrConfig ["aa", "ab", "ac"] 2 1) (initState "a" "a")
        ["aa", "ab", "ac"]).1.items.length ≤ (arrConfig ["aa", "ab", "ac"] 2 1).itemLimit ∧
    (processScan (arrConfig ["aa", "ab", "ac"] 2 1).matcher (initState "a" "a").term
        (arrConfig ["aa", "ab", "ac"] 2 1).itemLimit
        ((arrConfig ["aa", "ab", "ac"] 2 1).sorter ["aa", "ab", "ac"]) 0).2.2 =
      (process (arrConfig ["aa", "ab", "ac"] 2 1) (initState "a" "a")
        ["aa", "ab", "ac"]).1.items ∧
    (∃ untouched,
      (arrConfig ["aa", "ab", "ac"] 2 1).sorter ["aa", "ab", "ac"] =
        (processScan (arrConfig ["aa", "ab", "ac"] 2 1).matcher (initState "a" "a").term
          (arrConfig ["aa", "ab", "ac"] 2 1).itemLimit
          ((arrConfig ["aa", "ab", "ac"] 2 1).sorter ["aa", "ab", "ac"]) 0).2.1 ++
            untouched ∧
      (untouched ≠ [] →
        ((processScan (arrConfig ["aa", "ab", "ac"] 2 1).matcher
          (initState "a" "a").term (arrConfig ["aa", "ab", "ac"] 2 1).itemLimit
          ((arrConfig ["aa", "ab", "ac"] 2 1).sorter ["aa", "ab", "ac"]) 0).2.1.countP
            fun it =>
              (arrConfig ["aa", "ab", "ac"] 2 1).matcher it
                (initState "a" "a").term) =
          (arrConfig ["aa", "ab", "ac"] 2 1).itemLimit))) :=
  ⟨⟨by decide, by decide⟩,
    C1_pipeline_cap (arrConfig ["aa", "ab", "ac"] 2 1) (initState "a" "a")
      ["aa", "ab", "ac"] (by decide) (by decide)⟩

/-- **C5** (counterexample).  With a previously rendered session
(`items = ["banana"]`, `index = 0`) and an empty current term, the guard in
`process` hides the dropdown but does NOT clear the session state:
`renderedItems` stays `["banana"]` and `activeIndex` stays `0`, contradicting
the claimed reset to the empty sequence and `-1`. -/
theorem C5_counterexample :
    (process (arrConfig ["banana"] 15 1)
        { term := "", index := 0, items := ["banana"], cache := [],
          inputValue := "", visible := true, timerPending := false }
        ["banana"]).1.items ≠ [] ∧
    (process (arrConfig ["banana"] 15 1)
        { term := "", index := 0, items := ["banana"], cache := [],
          inputValue := "", visible := true, timerPending := false }
        ["banana"]).1.index ≠ -1 ∧
    (process (arrConfig ["banana"] 15 1)
        { term := "", index := 0, items := ["banana"], cache := [],
          inputValue := "", visible := true, timerPending := false }
        ["banana"]).1.visible = false := by
  refine ⟨by decide, by decide, by decide⟩

/-- **C5** (amended).  When `process` runs with an empty current term or an
empty raw item list, the dropdown is hidden and nothing else happens: the
whole session state — `renderedItems`, `activeIndex`, `term`, `cache`,
input value, pending timer — is left exactly as it was (in particular it is
NOT reset), and no event is emitted. -/
theorem C5_empty_guard (cfg : Config) (st : State) (raw : List String)
    (h : st.term = "" ∨ raw = []) :
    process cfg st raw = ({ st with visible := false }, []) := by
  simp only [process]
  rw [if_pos h]

/-- Witness for C5: an empty term over a non-empty previously rendered
session. -/
theorem C5_empty_guard_witness :
    (({ term := "", index := 0, items := ["banana"], cache := [],
        inputValue := "", visible := true, timerPending := false } : State).term = "" ∨
      (["x"] : List String) = []) ∧
    process (arrConfig ["banana"] 15 1)
        { term := "", index := 0, items := ["banana"], cache := [],
          inputValue := "", visible := true, timerPending := false } ["x"] =
      ({ term := "", index := 0, items := ["banana"], cache := [],
          inputValue := "", visible := false, timerPending := false }, []) :=
  ⟨Or.inl rfl,
    C5_empty_guard (arrConfig ["banana"] 15 1)
      { term := "", index := 0, items := ["banana"], cache := [],
        inputValue := "", visible := true, timerPending := false } ["x"] (Or.inl rfl)⟩

theorem markActive_fields (s : State) :
    (markActive s).index = s.index ∧ (markActive s).items = s.items ∧
    (markActive s).visible = s.visible ∧ (markActive s).term = s.term := by
  unfold markActive
  split <;> exact ⟨rfl, rfl, rfl, rfl⟩

theorem cycle_down_state (cfg : Config) (st : State) (N : Nat)
    (hN : st.items.length = N) (h0 : 0 < N) (hlim : N ≤ cfg.itemLimit)
    (hvis : st.visible = true) :
    (cycle cfg st Key.down).1.index =
      (if st.index + 1 ≥ (N : Int) then 0 else st.index + 1) ∧
    (cycle cfg st Key.down).1.items = st.items ∧
    (cycle cfg st Key.down).1.visible = true := by
  have hlen : min st.items.length cfg.itemLimit = N := by
    rw [hN]; exact Nat.min_eq_left hlim
  simp only [cycle, hlen, hvis]
  rw [if_neg (by simp; omega)]
  refine ⟨?_, ?_, ?_⟩
  · rw [(markActive_fields _).1]
  · rw [(markActive_fields _).2.1]
  · rw [(markActive_fields _).2.2.1]

theorem cycle_downN (cfg : Config) (N : Nat) (h0 : 0 < N) (hlim : N ≤ cfg.itemLimit) :
    ∀ (k : Nat) (st : State), st.items.length = N → st.visible = true →
      0 ≤ st.index → st.index < (N : Int) → k ≤ N →
      ((fun s => (cycle cfg s Key.down).1)^[k] st).index =
        (if st.index + k < (N : Int) then st.index + k else st.index + k - N) := by
  intro k
  induction k with
  | zero =>
    intro st _ _ _ h4 _
    simp only [Function.iterate_zero, id_eq]
    rw [if_pos (by push_cast; omega)]
    simp
  | succ k ih =>
    intro st h1 h2 h3 h4 h5
    rw [Function.iterate_succ_apply]
    obtain ⟨hidx, hitems, hvis2⟩ := cycle_down_state cfg st N h1 h0 hlim h2
    have hN' : (0 : Int) < (N : Int) := by exact_mod_cast h0
    have h3' : 0 ≤ (cycle cfg st Key.down).1.index := by
      rw [hidx]; split <;> omega
    have h4' : (cycle cfg st Key.down).1.index < (N : Int) := by
      rw [hidx]; split <;> omega
    have h1' : (cycle cfg st Key.down).1.items.length = N := by rw [hitems]; exact h1
    rw [ih _ h1' hvis2 h3' h4' (by omega)]
    rw [hidx]
    push_cast
    split_ifs <;> omega

/-- **C2** (counterexample).  With one rendered item and `activeIndex = -1`
(the state right after rendering, before any navigation), pressing `down`
N = 1 times yields index `0`, not the starting index `-1`: the "pressing
down N times from any starting index returns to that same index" law fails
for the legal starting index `-1`. -/
theorem C2_counterexample :
    ((fun s => (cycle (arrConfig ["x"] 15 1) s Key.down).1)^[1]
        { term := "x", index := -1, items := ["x"], cache := [],
          inputValue := "x", visible := true, timerPending := false }).index = 0 ∧
    ((fun s => (cycle (arrConfig ["x"] 15 1) s Key.down).1)^[1]
        { term := "x", index := -1, items := ["x"], cache := [],
          inputValue := "x", visible := true, timerPending := false }).index ≠ -1 := by
  exact ⟨by decide, by decide⟩

/-- **C2** (amended).  While the dropdown is open over N rendered items
(N ≤ `itemLimit`): `up` decrements and wraps to N−1 whenever the decrement
goes below 0 (in particular one `up` from −1 gives N−1); `down` increments
and wraps to 0 when the increment reaches N; and pressing `down` N times
returns to the same index for every starting index in [0, N) — the start
−1 is excluded, where N downs end at N−1 instead. -/
theorem C2_cycle_wrap (cfg : Config) (st : State) (N : Nat)
    (hN : st.items.length = N) (h0 : 0 < N) (hlim : N ≤ cfg.itemLimit)
    (hvis : st.visible = true) :
    ((cycle cfg st Key.up).1.index =
        if st.index - 1 < 0 then (N : Int) - 1 else st.index - 1) ∧
    ((cycle cfg st Key.down).1.index =
        if st.index + 1 ≥ (N : Int) then 0 else st.index + 1) ∧
    (0 ≤ st.index → st.index < (N : Int) →
      ((fun s => (cycle cfg s Key.down).1)^[N] st).index = st.index) := by
  refine ⟨?_, (cycle_down_state cfg st N hN h0 hlim hvis).1, fun h3 h4 => ?_⟩
  · have hlen : min st.items.length cfg.itemLimit = N := by
      rw [hN]; exact Nat.min_eq_left hlim
    simp only [cycle, hlen, hvis]
    rw [if_neg (by simp; omega)]
    rw [(markActive_fields _).1]
  · rw [cycle_downN cfg N h0 hlim N st hN hvis h3 h4 le_rfl]
    rw [if_neg (by omega)]
    omega

/-- Witness for C2 (amended): two items `["a", "b"]`, starting index `0`. -/
theorem C2_cycle_wrap_witness :
    (({ term := "a", index := 0, items := ["a", "b"], cache := [], inputValue := "a",
        visible := true, timerPending := false } : State).items.length = 2 ∧
      0 < 2 ∧ 2 ≤ (arrConfig ["a", "b"] 15 1).itemLimit) ∧
    ((cycle (arrConfig ["a", "b"] 15 1)
        { term := "a", index := 0, items := ["a", "b"], cache := [], inputValue := "a",
          visible := true, timerPending := false } Key.up).1.index =
      if (0 : Int) - 1 < 0 then ((2 : Nat) : Int) - 1 else (0 : Int) - 1) ∧
    ((cycle (arrConfig ["a", "b"] 15 1)
        { term := "a", index := 0, items := ["a", "b"], cache := [], inputValue := "a",
          visible := true, timerPending := false } Key.down).1.index =
      if (0 : Int) + 1 ≥ ((2 : Nat) : Int) then 0 else (0 : Int) + 1) ∧
    (((fun s => (cycle (arrConfig ["a", "b"] 15 1) s Key.down).1)^[2]
        { term := "a", index := 0, items := ["a", "b"], cache := [], inputValue := "a",
          visible := true, timerPending := false }).index = 0) := by
  have h := C2_cycle_wrap (arrConfig ["a", "b"] 15 1)
    { term := "a", index := 0, items := ["a", "b"], cache := [], inputValue := "a",
      visible := true, timerPending := false } 2 (by decide) (by decide) (by decide)
    (by decide)
  exact ⟨⟨by decide, by decide, by decide⟩, h.1, h.2.1, h.2.2 (by decide) (by decide)⟩

/-- **C6**.  Pressing esc while the dropdown is open (visible, at least one
rendered item, positive item limit) sets `activeIndex` to −1, restores the
input's displayed value to the current term — regardless of any item text
previewed there by earlier up/down navigation — emits `reset`, and hides
the dropdown; nothing else changes. -/
theorem C6_esc_reset (cfg : Config) (st : State)
    (hvis : st.visible = true) (hitems : st.items ≠ []) (hlim : 0 < cfg.itemLimit) :
    cycle cfg st Key.esc =
      ({ st with index := -1, inputValue := st.term, visible := false },
       [Event.reset]) := by
  have hpos : 0 < st.items.length := List.length_pos.mpr hitems
  simp only [cycle, hvis]
  rw [if_neg (by push_neg; exact ⟨by omega, by decide⟩)]
  simp [markActive]

/-- Witness for C6: Scenario D — term `"ban"`, previewed input value
`"bandana"` from navigating to index 1; esc restores `"ban"`. -/
theorem C6_esc_reset_witness :
    (escDemoState.visible = true ∧ escDemoState.items ≠ [] ∧
      0 < (arrConfig ["banana", "bandana"] 15 1).itemLimit) ∧
    cycle (arrConfig ["banana", "bandana"] 15 1) escDemoState Key.esc =
      ({ escDemoState with
          index := -1, inputValue := escDemoState.term, visible := false },
        [Event.reset]) :=
  ⟨⟨rfl, by decide, by decide⟩,
    C6_esc_reset (arrConfig ["banana", "bandana"] 15 1) escDemoState
      rfl (by decide) (by decide)⟩

/-- **C9**.  For every non-navigation key event whose (trimmed) input value
is shorter than `minLength`: the pending debounce timer is cleared and no
new one is scheduled (no lookup fires), and the dropdown is hidden; the
session term is not updated. -/
theorem C9_short_term_no_lookup (cfg : Config) (st : State) (k : Key)
    (hk : navKeys.contains k = false)
    (hshort : (jsTrim st.inputValue).length < cfg.minLength) :
    keyLookup cfg st k = ({ st with timerPending := false, visible := false }, false) := by
  simp only [keyLookup, hk, Bool.false_eq_true, if_false]
  rw [if_pos hshort]

/-- Witness for C9: Scenario B — `minLength = 3`, typed value `"ap"`. -/
theorem C9_short_term_witness :
    (navKeys.contains Key.other = false ∧
      (jsTrim (initState "" "ap").inputValue).length <
        (arrConfig ["apple"] 15 3).minLength) ∧
    keyLookup (arrConfig ["apple"] 15 3) (initState "" "ap") Key.other =
      ({ initState "" "ap" with timerPending := false, visible := false }, false) :=
  ⟨⟨by decide, by decide⟩,
    C9_short_term_no_lookup (arrConfig ["apple"] 15 3) (initState "" "ap") Key.other
      (by decide) (by decide)⟩

/-- **C10**.  Pressing enter while the dropdown is open but before any
navigation (`activeIndex = -1`): the enter branch performs no bounds check,
so `select` fires with the out-of-range read `items[-1]` — `undefined`,
modelled as `none` — and index −1, and the dropdown is hidden. -/
theorem C10_enter_no_bounds (cfg : Config) (st : State)
    (hvis : st.visible = true) (hitems : st.items ≠ []) (hlim : 0 < cfg.itemLimit)
    (hidx : st.index = -1) :
    cycle cfg st Key.enter =
      ({ st with visible := false }, [Event.select none (-1)]) := by
  have hpos : 0 < st.items.length := List.length_pos.mpr hitems
  simp only [cycle, hvis]
  rw [if_neg (by push_neg; exact ⟨by omega, by decide⟩)]
  simp [markActive, hidx, jsGet]

/-- Witness for C10: one rendered item, `activeIndex = -1`, enter pressed. -/
theorem C10_enter_no_bounds_witness :
    (enterDemoState.visible = true ∧ enterDemoState.items ≠ [] ∧
      0 < (arrConfig ["apple"] 15 1).itemLimit ∧ enterDemoState.index = -1) ∧
    cycle (arrConfig ["apple"] 15 1) enterDemoState Key.enter =
      ({ enterDemoState with visible := false }, [Event.select none (-1)]) :=
  ⟨⟨rfl, by decide, by decide, rfl⟩,
    C10_enter_no_bounds (arrConfig ["apple"] 15 1) enterDemoState
      rfl (by decide) (by decide) rfl⟩

/-- **C7** (counterexample).  With an unrecognized source, the synchronous
part of `lookup` completes normally — no error is thrown at lookup time.
The `InvalidSourceKind` error is raised only later, inside the debounce
timer's callback, i.e. asynchronously: the claim's "thrown synchronously at
lookup time" does not hold. -/
theorem C7_sync_counterexample :
    lookupSchedule (otherConfig "number") (initState "" "") "a" =
      .ok { initState "" "" with term := "a", timerPending := true } ∧
    fireTimer (otherConfig "number")
        { initState "" "" with term := "a", timerPending := true } =
      .error TAError.invalidSourceKind :=
  ⟨rfl, rfl⟩

/-- **C7** (amended).  For every unrecognized source kind and every term not
in the cache: scheduling the lookup succeeds with no synchronous error (it
just stores the term and starts the timer), and the `InvalidSourceKind`
error is thrown when the debounce timer fires. -/
theorem C7_invalid_source_async (cfg : Config) (st : State) (term kind : String)
    (hsrc : cfg.source = Source.other kind)
    (hmiss : cacheFind st.cache term = none) :
    lookupSchedule cfg st term = .ok { st with term := term, timerPending := true } ∧
    fireTimer cfg { st with term := term, timerPending := true } =
      .error TAError.invalidSourceKind := by
  refine ⟨rfl, ?_⟩
  simp only [fireTimer]
  rw [hmiss, hsrc]

/-- Witness for C7 (amended): `typeOf` tag `"number"`, term `"a"`, empty
cache. -/
theorem C7_invalid_source_async_witness :
    ((otherConfig "number").source = Source.other "number" ∧
      cacheFind (initState "" "").cache "a" = none) ∧
    (lookupSchedule (otherConfig "number") (initState "" "") "a" =
        .ok { initState "" "" with term := "a", timerPending := true } ∧
      fireTimer (otherConfig "number")
          { initState "" "" with term := "a", timerPending := true } =
        .error TAError.invalidSourceKind) :=
  ⟨⟨rfl, rfl⟩,
    C7_invalid_source_async (otherConfig "number") (initState "" "") "a" "number"
      rfl rfl⟩

/-- **C8** (counterexample).  The function source is invoked with the empty
argument list (`attempt([], this)` passes the widget only as the `this`
binding), not with `(term, widgetContext)`; and when the call yields the
empty array — an empty but truthy value — the pipeline DOES advance into
`process`, which hides the previously visible dropdown: the dropdown state
is not left unchanged. -/
theorem C8_counterexample :
    funcCallArgs = [] ∧
    attempt emptyArrFunc funcCallArgs = JSVal.varr [] ∧
    openDemoState.visible = true ∧
    fireTimer (funcConfig emptyArrFunc) openDemoState =
      .ok ({ openDemoState with visible := false }, [], true) :=
  ⟨rfl, rfl, rfl, rfl⟩

/-- **C8** (amended).  When the source is a function and the term is not
cached, the lookup invokes it with no arguments (the widget is only the
`this` binding): a thrown exception is swallowed (`attempt` yields `null`)
and nothing advances to rendering; any falsy return (`null`, `undefined`,
`false`) likewise does not advance; but an array return — even the empty
array, which is truthy — does advance into `process` (the empty array makes
`process` hide the dropdown). -/
theorem C8_function_source (cfg : Config) (st : State) (f : FuncSource)
    (hsrc : cfg.source = Source.func f)
    (hmiss : cacheFind st.cache st.term = none) :
    (∀ e, f funcCallArgs = Except.error e → fireTimer cfg st = .ok (st, [], true)) ∧
    (f funcCallArgs = Except.ok JSVal.vnull → fireTimer cfg st = .ok (st, [], true)) ∧
    (f funcCallArgs = Except.ok JSVal.vundefined →
      fireTimer cfg st = .ok (st, [], true)) ∧
    (f funcCallArgs = Except.ok JSVal.vfalse → fireTimer cfg st = .ok (st, [], true)) ∧
    (∀ l, f funcCallArgs = Except.ok (JSVal.varr l) →
      fireTimer cfg st = .ok ((process cfg st l).1, (process cfg st l).2, true)) ∧
    (f funcCallArgs = Except.ok (JSVal.varr []) →
      fireTimer cfg st = .ok ({ st with visible := false }, [], true)) := by
  have hff : ∀ X : JSVal, attempt f funcCallArgs = X →
      fireTimer cfg st =
        (if truthy X = true then
          .ok ((process cfg st (respItems X)).1, (process cfg st (respItems X)).2, true)
        else .ok (st, [], true)) := by
    intro X hX
    simp only [fireTimer, hmiss, hsrc, hX]
  refine ⟨fun e hf => ?_, fun hf => ?_, fun hf => ?_, fun hf => ?_,
    fun l hf => ?_, fun hf => ?_⟩
  · rw [hff JSVal.vnull (by simp [attempt, hf])]
    rfl
  · rw [hff JSVal.vnull (by simp [attempt, hf])]
    rfl
  · rw [hff JSVal.vundefined (by simp [attempt, hf])]
    rfl
  · rw [hff JSVal.vfalse (by simp [attempt, hf])]
    rfl
  · rw [hff (JSVal.varr l) (by simp [attempt, hf])]
    rfl
  · rw [hff (JSVal.varr []) (by simp [attempt, hf])]
    simp [process, respItems, truthy]

/-- Witness for C8 (amended): a function source that always throws; the
exception is swallowed and the state is untouched. -/
theorem C8_function_source_witness :
    ((funcConfig throwFunc).source = Source.func throwFunc ∧
      cacheFind (initState "zz" "zz").cache (initState "zz" "zz").term = none ∧
      throwFunc funcCallArgs = Except.error ()) ∧
    fireTimer (funcConfig throwFunc) (initState "zz" "zz") =
      .ok (initState "zz" "zz", [], true) :=
  ⟨⟨rfl, rfl, rfl⟩,
    (C8_function_source (funcConfig throwFunc) (initState "zz" "zz") throwFunc
      rfl rfl).1 () rfl⟩

theorem cacheFind_insert (c : List (String × List String)) (k : String)
    (v : List String) : cacheFind (cacheInsert c k v) k = some v := by
  simp [cacheFind, cacheInsert, List.find?]

/-- Re-processing a list that is already sorted, all-matching and within the
limit reproduces it unchanged (with the default sorter). -/
theorem process_items_stable (cfg : Config) (st : State)
    (hsort : cfg.sorter = defaultSort) (hterm : st.term ≠ "")
    (hsorted : List.Sorted (· ≤ ·) st.items)
    (hall : ∀ x ∈ st.items, cfg.matcher x st.term = true)
    (hlen : st.items.length ≤ cfg.itemLimit) :
    (process cfg st st.items).1.items = st.items := by
  by_cases hk : st.items = []
  · rw [hk]
    simp [process, hk]
  · have hguard : ¬(st.term = "" ∨ st.items = []) := by push_neg; exact ⟨hterm, hk⟩
    simp only [process]
    rw [if_neg hguard]
    have hsid : cfg.sorter st.items = st.items := by
      rw [hsort]
      exact List.Sorted.insertionSort_eq hsorted
    rw [hsid, processScan_kept _ _ _ _ 0 (Nat.zero_le _), Nat.sub_zero,
      List.filter_eq_self.mpr hall]
    exact List.take_of_length_le hlen

/-- **C3** (counterexample).  The claim fails as stated, because the
cache-hit branch calls `this.process(this.cache[term])`, and `process`
re-applies the **configured** sorter to the cached list.  With a reversing
sorter, the first lookup for `"a"` renders and caches `["ab", "aa"]`; the
second lookup hits the cache (access flag `false` — the source is indeed
never consulted) but re-sorts the cached list and renders `["aa", "ab"]`:
the rendered sequences differ. -/
theorem C3_cache_resort_counterexample :
    fireTimer revConfig { initState "" "" with term := "a" } =
      .ok (revState1, [Event.show], true) ∧
    fireTimer revConfig revState1 = .ok (revState2, [Event.show], false) ∧
    revState1.items = ["ab", "aa"] ∧
    revState2.items = ["aa", "ab"] ∧
    revState2.items ≠ revState1.items :=
  ⟨rfl, rfl, rfl, rfl, by decide⟩

/-- **C3** (amended).  After a first (timer-fired) lookup for a non-empty
term over an array source has rendered and cached its filtered/capped list,
a second lookup for the exact same term takes the cache branch: it performs
no access to the configured source (the access flag is `false`: no array
read, no function call, no fetch), and — provided the configured sorter is
the default lexicographic sort, since the cache-hit branch re-runs the
render pipeline and so re-applies the configured sorter to the cached
list — the re-rendered `renderedItems` sequence is identical to the first.
(A custom sorter that reorders its own output, such as `reverse`, breaks
the identical-sequence half; see the counterexample.) -/
theorem C3_cache_idempotent (cfg : Config) (st : State) (raw : List String)
    (term : String)
    (hsort : cfg.sorter = defaultSort)
    (hterm : term ≠ "") (hraw : raw ≠ [])
    (hsrc : cfg.source = Source.arr raw)
    (hmiss : cacheFind st.cache term = none) :
    ∃ st1 ev1 st2 ev2,
      fireTimer cfg { st with term := term } = .ok (st1, ev1, true) ∧
      fireTimer cfg st1 = .ok (st2, ev2, false) ∧
      st2.items = st1.items := by
  have hguard : ¬(term = "" ∨ raw = []) := by push_neg; exact ⟨hterm, hraw⟩
  -- the first fire goes through the array branch and renders
  have hfire1 : fireTimer cfg { st with term := term } =
      .ok ((process cfg { st with term := term } raw).1,
        (process cfg { st with term := term } raw).2, true) := by
    simp only [fireTimer]
    rw [hmiss, hsrc]
  set kept :=
    (processScan cfg.matcher term cfg.itemLimit (cfg.sorter raw) 0).1 with hkept
  have hproc1 : (process cfg { st with term := term } raw).1 =
      { st with
        term := term, items := kept, index := -1,
        cache := cacheInsert st.cache term kept, visible := !kept.isEmpty } := by
    simp only [process]
    rw [if_neg hguard]
  -- structural properties of the cached list
  have hkeq : kept =
      ((cfg.sorter raw).filter fun it => cfg.matcher it term).take cfg.itemLimit := by
    rw [hkept, processScan_kept _ _ _ _ 0 (Nat.zero_le _), Nat.sub_zero]
  have hsorted : List.Sorted (· ≤ ·) kept := by
    rw [hkeq, hsort]
    exact ((List.sorted_insertionSort _ raw).sublist
      ((List.filter_sublist _).trans (List.Sublist.refl _))).sublist
      (List.take_sublist _ _)
  have hall : ∀ x ∈ kept, cfg.matcher x term = true := by
    intro x hx
    rw [hkeq] at hx
    have hx2 : x ∈ (cfg.sorter raw).filter fun it => cfg.matcher it term :=
      List.mem_of_mem_take hx
    exact (List.mem_filter.mp hx2).2
  have hlen : kept.length ≤ cfg.itemLimit := by
    rw [hkeq]
    exact List.length_take_le _ _
  set st1 : State :=
    { st with
      term := term, items := kept, index := -1,
      cache := cacheInsert st.cache term kept, visible := !kept.isEmpty } with hst1
  -- the second fire hits the cache
  have hc1 : cacheFind st1.cache st1.term = some kept := cacheFind_insert _ _ _
  have hfire2 : fireTimer cfg st1 =
      .ok ((process cfg st1 kept).1, (process cfg st1 kept).2, false) := by
    simp only [fireTimer]
    rw [hc1]
  have hstable : (process cfg st1 kept).1.items = kept := by
    have h := process_items_stable cfg st1 hsort hterm hsorted
      (by intro x hx; exact hall x hx) hlen
    exact h
  refine ⟨st1, (process cfg { st with term := term } raw).2,
    (process cfg st1 kept).1, (process cfg st1 kept).2, ?_, hfire2, ?_⟩
  · rw [hfire1, hproc1]
  · rw [hstable]

/-- Witness for C3 (amended): term `"ap"` over the array source
`["apple", "banana", "apricot"]` with the default sorter. -/
theorem C3_cache_idempotent_witness :
    ((arrConfig ["apple", "banana", "apricot"] 15 1).sorter = defaultSort ∧
      ("ap" : String) ≠ "" ∧ (["apple", "banana", "apricot"] : List String) ≠ [] ∧
      (arrConfig ["apple", "banana", "apricot"] 15 1).source =
        Source.arr ["apple", "banana", "apricot"] ∧
      cacheFind (initState "" "").cache "ap" = none) ∧
    (∃ st1 ev1 st2 ev2,
      fireTimer (arrConfig ["apple", "banana", "apricot"] 15 1)
          { initState "" "" with term := "ap" } = .ok (st1, ev1, true) ∧
      fireTimer (arrConfig ["apple", "banana", "apricot"] 15 1) st1 =
        .ok (st2, ev2, false) ∧
      st2.items = st1.items) :=
  ⟨⟨rfl, by decide, by decide, rfl, rfl⟩,
    C3_cache_idempotent (arrConfig ["apple", "banana", "apricot"] 15 1)
      (initState "" "") ["apple", "banana", "apricot"] "ap"
      rfl (by decide) (by decide) rfl rfl⟩

end TypeAhead
